import Mathlib

/-!
# Shallow embedding of the Groq meeting-assistant (`src/app.py`)

The program is a single-file terminal assistant.  The parts the claims are
about are embedded here:

* Python string primitives used by the code (`lower`, `strip`, `in`,
  `replace(kw, "")`, `split(sep)`), modelled on `List Char` for the ASCII
  strings the program manipulates;
* a calendar model for `datetime` values (year/month/day/hour/minute/second,
  proleptic Gregorian, `weekday()` with Monday = 0, `timedelta(days=n)`);
* `datetime.strftime("%Y-%m-%d %H:%M")` and
  `datetime.strptime(_, "%Y-%m-%d %H:%M")` (the latter following CPython's
  `_strptime` field regexes);
* the clock-time token regex `\d{1,2}(:\d{2})?\s?(am|pm)?` of
  `parse_natural_datetime` and the behaviour of
  `dateutil.parser.parse(f"{base:%Y-%m-%d} {token}")` on exactly the strings
  that regex (or the default `"9am"`) can produce;
* `parse_natural_datetime`, `cleanup_old_meetings`, `add_meeting`,
  `show_meetings`, `delete_meeting` and the routing function `chat_with_ai`.

The fuzzy fallback `date_parser.parse(text, fuzzy=True, default=now)` is
wrapped in `try/except` by the code, so it is modelled as an arbitrary total
function `fuzzy : String → Option DateTime` (`none` = the `except` path);
the external LLM is modelled as an arbitrary function from the message list
to a reply string.  Both are parameters of the embedding.
-/

namespace GroqAssistant

/-! ## Python string primitives -/

/-- The ASCII whitespace characters matched by Python's `str.strip` and by
`\s` in the clock-time regex (the program's strings are ASCII). -/
def pyIsSpace (c : Char) : Bool :=
  c = ' ' || c = '\t' || c = '\n' || c = '\r' || c = '\x0b' || c = '\x0c'

/-- Python's `str.lower`, restricted to ASCII. -/
def pyLower (s : String) : String := ⟨s.data.map Char.toLower⟩

/-- Python's `str.strip()`: drop leading and trailing whitespace. -/
def pyStrip (s : String) : String :=
  ⟨((s.data.dropWhile pyIsSpace).reverse.dropWhile pyIsSpace).reverse⟩

/-- `pat` is a prefix of `l`. -/
def isPrefixL : List Char → List Char → Bool
  | [], _ => true
  | _ :: _, [] => false
  | a :: as, b :: bs => a == b && isPrefixL as bs

/-- `pat` occurs as a contiguous substring of `l` (Python's `pat in s`). -/
def containsL (pat : List Char) : List Char → Bool
  | [] => isPrefixL pat []
  | c :: cs => isPrefixL pat (c :: cs) || containsL pat cs

/-- Python's substring test `pat in s`. -/
def pyContains (s pat : String) : Bool := containsL pat.data s.data

/-- Worker for `replaceL`.  Each step consumes at least one character of the
scanned list, so fuel equal to the list's length suffices; the fuel makes the
recursion structural (and hence kernel-reducible). -/
def replaceFuel (pat : List Char) : Nat → List Char → List Char
  | _, [] => []
  | 0, l => l
  | fuel + 1, c :: cs =>
    if !pat.isEmpty && isPrefixL pat (c :: cs) then
      replaceFuel pat fuel (cs.drop (pat.length - 1))
    else c :: replaceFuel pat fuel cs

/-- Python's `s.replace(pat, "")`: delete every non-overlapping occurrence of
`pat`, scanning left to right.  (The code only ever replaces keywords with the
empty string; all keywords are non-empty, and an empty pattern is mapped to
the identity here.) -/
def replaceL (pat l : List Char) : List Char := replaceFuel pat l.length l

/-- Python's `s.replace(pat, "")` on strings. -/
def pyReplace (s pat : String) : String := ⟨replaceL pat.data s.data⟩

/-- Worker for `pySplit`, fueled like `replaceFuel`: Python's
`str.split(sep)` with a non-empty separator (non-overlapping occurrences,
scanned left to right, empty pieces kept). -/
def splitFuel (pat : List Char) : Nat → List Char → List Char → List (List Char)
  | _, acc, [] => [acc.reverse]
  | 0, acc, l => [acc.reverse ++ l]
  | fuel + 1, acc, c :: cs =>
    if !pat.isEmpty && isPrefixL pat (c :: cs) then
      acc.reverse :: splitFuel pat fuel [] (cs.drop (pat.length - 1))
    else splitFuel pat fuel (c :: acc) cs

/-- Python's `s.split(sep)` for a non-empty separator. -/
def pySplit (s pat : String) : List String :=
  (splitFuel pat.data s.data.length [] s.data).map fun l => ⟨l⟩

/-! ## Calendar model for `datetime` -/

/-- A `datetime.datetime` value at second granularity (the program never
inspects microseconds; comparisons at this granularity decide every claim). -/
structure DateTime where
  y : Nat
  mo : Nat
  d : Nat
  h : Nat
  mi : Nat
  sec : Nat
deriving DecidableEq, Repr

/-- Gregorian leap year. -/
def isLeap (y : Nat) : Bool := y % 4 == 0 && (y % 100 != 0 || y % 400 == 0)

/-- Days in a month (months are 1-based; the wildcard is unreachable for the
valid dates the program produces). -/
def daysInMonth (y m : Nat) : Nat :=
  match m with
  | 1 => 31
  | 2 => if isLeap y then 29 else 28
  | 3 => 31
  | 4 => 30
  | 5 => 31
  | 6 => 30
  | 7 => 31
  | 8 => 31
  | 9 => 30
  | 10 => 31
  | 11 => 30
  | 12 => 31
  | _ => 31

/-- Days strictly before month `m` in year `y`. -/
def daysBeforeMonth (y m : Nat) : Nat :=
  let l := if isLeap y then 1 else 0
  match m with
  | 1 => 0
  | 2 => 31
  | 3 => 59 + l
  | 4 => 90 + l
  | 5 => 120 + l
  | 6 => 151 + l
  | 7 => 181 + l
  | 8 => 212 + l
  | 9 => 243 + l
  | 10 => 273 + l
  | 11 => 304 + l
  | 12 => 334 + l
  | _ => 334 + l

/-- Python's `date.toordinal()` (0001-01-01 has ordinal 1). -/
def toOrdinal (dt : DateTime) : Nat :=
  365 * (dt.y - 1) + (dt.y - 1) / 4 - (dt.y - 1) / 100 + (dt.y - 1) / 400 +
    daysBeforeMonth dt.y dt.mo + dt.d

/-- Python's `datetime.weekday()`: Monday = 0 … Sunday = 6
(0001-01-01 was a Monday). -/
def weekday (dt : DateTime) : Nat := (toOrdinal dt + 6) % 7

/-- Advance the calendar date by one day, keeping the time of day
(`timedelta(days=1)`). -/
def nextDayD (dt : DateTime) : DateTime :=
  if dt.d < daysInMonth dt.y dt.mo then { dt with d := dt.d + 1 }
  else if dt.mo < 12 then { dt with mo := dt.mo + 1, d := 1 }
  else { dt with y := dt.y + 1, mo := 1, d := 1 }

/-- `dt + timedelta(days=n)`. -/
def addDays (dt : DateTime) : Nat → DateTime
  | 0 => dt
  | n + 1 => nextDayD (addDays dt n)

/-- Python's `datetime` comparison `a < b` (lexicographic on the fields). -/
def dtLtB (a b : DateTime) : Bool :=
  (a.y < b.y) ||
  (a.y == b.y && ((a.mo < b.mo) ||
    (a.mo == b.mo && ((a.d < b.d) ||
      (a.d == b.d && ((a.h < b.h) ||
        (a.h == b.h && ((a.mi < b.mi) ||
          (a.mi == b.mi && a.sec < b.sec)))))))))

/-- The field ranges of a real `datetime.datetime` value
(`MINYEAR = 1`, `MAXYEAR = 9999`). -/
abbrev ValidDT (dt : DateTime) : Prop :=
  1 ≤ dt.y ∧ dt.y ≤ 9999 ∧ 1 ≤ dt.mo ∧ dt.mo ≤ 12 ∧ 1 ≤ dt.d ∧
    dt.d ≤ daysInMonth dt.y dt.mo ∧ dt.h ≤ 23 ∧ dt.mi ≤ 59 ∧ dt.sec ≤ 59

/-! ## `strftime("%Y-%m-%d %H:%M")` and `strptime(_, "%Y-%m-%d %H:%M")` -/

/-- Two-digit zero-padded decimal (for `%m`, `%d`, `%H`, `%M`). -/
def pad2 (n : Nat) : List Char := [Nat.digitChar (n / 10 % 10), Nat.digitChar (n % 10)]

/-- Four-digit zero-padded decimal: the shape `%Y` takes for years in
1000..9999 (see `natDigits_eq_pad4`). -/
def pad4 (n : Nat) : List Char :=
  [Nat.digitChar (n / 1000 % 10), Nat.digitChar (n / 100 % 10),
   Nat.digitChar (n / 10 % 10), Nat.digitChar (n % 10)]

/-- Worker for `natDigits`; the fuel makes the recursion structural (one
unit per decimal digit, so fuel `n` suffices and the base case is only
reached with a single digit left). -/
def natDigitsAux : Nat → Nat → List Char
  | 0, n => [Nat.digitChar (n % 10)]
  | fuel + 1, n =>
    if n < 10 then [Nat.digitChar n]
    else natDigitsAux fuel (n / 10) ++ [Nat.digitChar (n % 10)]

/-- Unpadded decimal rendering: CPython's `strftime` delegates `%Y` to the
C library, and glibc prints the year as a plain decimal *without* zero
padding, so `datetime(5, 1, 11).strftime("%Y")` is `"5"`, not `"0005"`. -/
def natDigits (n : Nat) : List Char := natDigitsAux n n

/-- `datetime.strftime("%Y-%m-%d %H:%M")`, as a character list: the year
unpadded (glibc `%Y`), the other fields zero-padded to two digits. -/
def fmtFixedL (dt : DateTime) : List Char :=
  natDigits dt.y ++ '-' :: (pad2 dt.mo ++ '-' :: (pad2 dt.d ++ ' ' :: (pad2 dt.h ++ ':' :: pad2 dt.mi)))

/-- `datetime.strftime("%Y-%m-%d %H:%M")`. -/
def fmtFixed (dt : DateTime) : String := ⟨fmtFixedL dt⟩

/-- Decimal value of an ASCII digit. -/
def digitVal (c : Char) : Nat := c.toNat - 48

/-- Split a leading run of ASCII digits off a character list. -/
def readDigits : List Char → List Nat × List Char
  | [] => ([], [])
  | c :: cs =>
    if c.isDigit then
      let r := readDigits cs
      (digitVal c :: r.1, r.2)
    else ([], c :: cs)

/-- Value of a digit list, most significant first. -/
def digitsVal (ds : List Nat) : Nat := ds.foldl (fun a d => 10 * a + d) 0

/-- A one- or two-digit numeric field with value in `[lo, hi]`, as matched by
CPython `_strptime`'s regexes for `%m` / `%d` / `%H` / `%M` (each is an
alternation of one- and two-digit forms covering exactly that range, followed
by the next literal of the format). -/
def field2 (lo hi : Nat) (cs : List Char) : Option (Nat × List Char) :=
  let r := readDigits cs
  if (r.1.length = 1 ∨ r.1.length = 2) ∧ lo ≤ digitsVal r.1 ∧ digitsVal r.1 ≤ hi then
    some (digitsVal r.1, r.2)
  else none

/-- The `%Y` field of CPython `_strptime`: exactly four digits. -/
def field4 : List Char → Option (Nat × List Char)
  | a :: b :: c :: d :: r =>
    if a.isDigit && b.isDigit && c.isDigit && d.isDigit then
      some (digitsVal [digitVal a, digitVal b, digitVal c, digitVal d], r)
    else none
  | _ => none

/-- Expect a literal character. -/
def expectCh (c : Char) : List Char → Option (List Char)
  | x :: xs => if x = c then some xs else none
  | [] => none

/-- The head of `rest` (if any) is not a digit (used to state where a
leading digit run ends). -/
def headNotDigit (rest : List Char) : Prop :=
  ∀ c, rest.head? = some c → c.isDigit = false

/-- `datetime.strptime(s, "%Y-%m-%d %H:%M")` on a character list: `none`
models the raised `ValueError` (no match, unconverted data remaining, or an
out-of-range date rejected by the `datetime` constructor). -/
def strptimeFixedL (l : List Char) : Option DateTime := do
  let (y, r1) ← field4 l
  let r2 ← expectCh '-' r1
  let (mo, r3) ← field2 1 12 r2
  let r4 ← expectCh '-' r3
  let (d, r5) ← field2 1 31 r4
  let r6 ← expectCh ' ' r5
  let (h, r7) ← field2 0 23 r6
  let r8 ← expectCh ':' r7
  let (mi, r9) ← field2 0 59 r8
  if r9 = [] ∧ 1 ≤ y ∧ d ≤ daysInMonth y mo then some ⟨y, mo, d, h, mi, 0⟩ else none

/-- `datetime.strptime(s, "%Y-%m-%d %H:%M")`. -/
def strptimeFixed (s : String) : Option DateTime := strptimeFixedL s.data

/-! ## The clock-time token regex and the `dateutil` combination step -/

/-- AM/PM marker. -/
inductive Meridiem where
  | am
  | pm
deriving DecidableEq, Repr

/-- A match of the regex `\d{1,2}(:\d{2})?\s?(am|pm)?`: number of hour digits
matched (1 or 2), their value, the optional two-digit minutes, whether the
optional whitespace was consumed, and the optional meridiem. -/
structure TimeToken where
  hDigits : Nat
  h : Nat
  minutes : Option Nat
  hasSpace : Bool
  merid : Option Meridiem
deriving DecidableEq, Repr

/-- The `(am|pm)?` tail of the regex. -/
def tokenTailMerid : List Char → Option Meridiem
  | 'a' :: 'm' :: _ => some .am
  | 'p' :: 'm' :: _ => some .pm
  | _ => none

/-- The `\s?(am|pm)?` tail of the regex. -/
def tokenAfterMinutes (n h : Nat) (m : Option Nat) : List Char → TimeToken
  | c :: rest =>
    if pyIsSpace c then ⟨n, h, m, true, tokenTailMerid rest⟩
    else ⟨n, h, m, false, tokenTailMerid (c :: rest)⟩
  | [] => ⟨n, h, m, false, none⟩

/-- The `(:\d{2})?` group of the regex (exactly two digits after the colon,
otherwise the group matches empty). -/
def tokenAfterDigits (n h : Nat) (cs : List Char) : TimeToken :=
  match cs with
  | ':' :: a :: b :: rest =>
    if a.isDigit && b.isDigit then
      tokenAfterMinutes n h (some (10 * digitVal a + digitVal b)) rest
    else tokenAfterMinutes n h none (':' :: a :: b :: rest)
  | _ => tokenAfterMinutes n h none cs

/-- `re.search(r"\d{1,2}(:\d{2})?\s?(am|pm)?", text)`: the match starts at the
leftmost digit (every other part of the pattern is optional) and each
quantifier matches greedily; `none` when the text has no digit. -/
def scanTimeToken : List Char → Option TimeToken
  | [] => none
  | c :: cs =>
    if c.isDigit then
      some (match cs with
        | c2 :: rest =>
          if c2.isDigit then tokenAfterDigits 2 (10 * digitVal c + digitVal c2) rest
          else tokenAfterDigits 1 (digitVal c) (c2 :: rest)
        | [] => tokenAfterDigits 1 (digitVal c) [])
    else scanTimeToken cs

/-- The defaulted literal `"9am"` (as the token the regex would match on it). -/
def default9am : TimeToken := ⟨1, 9, none, false, some .am⟩

/-- `time_match.group() if time_match else "9am"`. -/
def timeTokenOrDefault (text : String) : TimeToken :=
  (scanTimeToken text.data).getD default9am

/-- dateutil's `_adjust_ampm`. -/
def adjustAmpm (h : Nat) : Meridiem → Nat
  | .pm => if h < 12 then h + 12 else h
  | .am => if h = 12 then 0 else h

/-- `dateutil.parser.parse(f"{base.strftime('%Y-%m-%d')} {time_str}")`, where
`time_str` is a match of the clock-time regex or the literal `"9am"`.
`none` models a raised `ParserError`/`ValueError`.  Following
`dateutil/parser/_parser.py` (`_parse_numeric_token` and the am/pm handling
of `_parse`) on this family of strings:

* minutes present (`HH:MM` branch): hour := the digit value, minute := the
  two minute digits;
* no minutes, two hour digits: the `19990101T23` branch sets hour := the two
  digits;
* no minutes, one hour digit and a meridiem (adjacent, or after the single
  whitespace, which dateutil's lexer emits as a jump token): hour is adjusted
  by `_adjust_ampm` directly;
* no minutes, one hour digit and no meridiem: the digit is appended to an
  already-complete year/month/day list, which raises;
* a meridiem seen by the main loop (any two-digit case, or with minutes)
  passes `_ampm_valid`, which raises unless `0 ≤ hour ≤ 12`;
* finally the `datetime` constructor raises unless `hour ≤ 23` and
  `minute ≤ 59`.  Seconds are 0 throughout. -/
def dateutilCombine (base : DateTime) (t : TimeToken) : Option DateTime :=
  let m := t.minutes.getD 0
  match t.merid with
  | some mer =>
    if 12 < t.h then none
    else if 59 < m then none
    else some ⟨base.y, base.mo, base.d, adjustAmpm t.h mer, m, 0⟩
  | none =>
    if t.hDigits = 1 && t.minutes.isNone then none
    else if 23 < t.h || 59 < m then none
    else some ⟨base.y, base.mo, base.d, t.h, m, 0⟩

/-! ## `parse_natural_datetime` -/

/-- Outcome of `parse_natural_datetime`: a returned timestamp string, a
returned `None` (the fallback's `except` path — the `ParseFailure` of the
specification), or an exception propagating to the caller. -/
inductive ParseOutcome where
  | ok (s : String)
  | failure
  | raised
deriving DecidableEq, Repr

/-- `days_map` from the code. -/
def weekdayNames : List String :=
  ["monday", "tuesday", "wednesday", "thursday", "friday", "saturday", "sunday"]

/-- `days_ahead = (i - now.weekday() + 7) % 7`, forced to 7 when 0.  (The
Python value `i - now.weekday() + 7` is non-negative, so `%` agrees with
truncated `Nat` arithmetic here.) -/
def nextWeekdayDays (i wd : Nat) : Nat :=
  let d := (i + 7 - wd) % 7
  if d = 0 then 7 else d

/-- The body of `parse_natural_datetime` acting on the already lower-cased
and stripped text.  The tomorrow / next-weekday branches call
`date_parser.parse` outside any `try`, so a failing combination step is
`.raised`; the fallback branch is wrapped in `try/except` and yields
`.failure` instead. -/
def parseCore (fuzzy : String → Option DateTime) (now : DateTime)
    (text : String) : ParseOutcome :=
  if pyContains text "tomorrow" then
    match dateutilCombine (addDays now 1) (timeTokenOrDefault text) with
    | some dt => .ok (fmtFixed dt)
    | none => .raised
  else
    match weekdayNames.findIdx? (fun day => pyContains text ("next " ++ day)) with
    | some i =>
      match dateutilCombine (addDays now (nextWeekdayDays i (weekday now)))
          (timeTokenOrDefault text) with
      | some dt => .ok (fmtFixed dt)
      | none => .raised
    | none =>
      match fuzzy text with
      | some dt => .ok (fmtFixed dt)
      | none => .failure

/-- `parse_natural_datetime(text)` with the reference instant
(`datetime.now()` in the code) and the wrapped fuzzy fallback passed as
parameters; `text = text.lower().strip()` is the code's first line. -/
def parseNaturalDatetime (fuzzy : String → Option DateTime) (now : DateTime)
    (text0 : String) : ParseOutcome :=
  parseCore fuzzy now (pyStrip (pyLower text0))

/-! ## Meeting ledger -/

/-- A persisted meeting record. -/
structure Meeting where
  title : String
  time : String
deriving DecidableEq, Repr

/-- The filter predicate of `cleanup_old_meetings`, on a record whose time
parses: `datetime.strptime(m["time"], "%Y-%m-%d %H:%M") > now`. -/
def meetingActiveB (now : DateTime) (m : Meeting) : Bool :=
  match strptimeFixed m.time with
  | some dt => dtLtB now dt
  | none => false

/-- `cleanup_old_meetings()` on a loaded list: `none` models the `ValueError`
raised by `strptime` on a malformed stored time (nothing is saved then);
otherwise the retained list that is written back. -/
def cleanupOldMeetings (now : DateTime) : List Meeting → Option (List Meeting)
  | [] => some []
  | m :: ms =>
    match strptimeFixed m.time with
    | none => none
    | some dt =>
      match cleanupOldMeetings now ms with
      | none => none
      | some rest => some (if dtLtB now dt then m :: rest else rest)

/-- `add_meeting(title, time_str)`: the confirmation text and the written
list. -/
def addMeeting (ms : List Meeting) (title time : String) : String × List Meeting :=
  ("Meeting '" ++ title ++ "' scheduled for " ++ time ++ ".", ms ++ [⟨title, time⟩])

/-- `show_meetings()`. -/
def showMeetings (ms : List Meeting) : String :=
  if ms.isEmpty then "No upcoming meetings found."
  else ms.foldl (fun acc m => acc ++ "- " ++ m.title ++ " at " ++ m.time ++ "\n")
    " Upcoming Meetings:\n"

/-- The "not found" result of `delete_meeting`. -/
def notFoundMsg : String := "Meeting not found."

/-- `delete_meeting(title)`: the reply and the written list. -/
def deleteMeeting (ms : List Meeting) (title : String) : String × List Meeting :=
  let updated := ms.filter fun m => pyLower m.title != pyLower title
  (if updated.length < ms.length then "Deleted meeting '" ++ title ++ "'."
   else notFoundMsg,
   updated)

/-! ## The intent router `chat_with_ai` -/

/-- A persisted conversation message.  The program itself only ever stores
`type` `"human"` or `"ai"` (the round trip through
`HumanMessage`/`AIMessage` is then the identity, which is how the history is
modelled here). -/
inductive Msg where
  | human (content : String)
  | ai (content : String)
deriving DecidableEq, Repr

/-- Observable result of one turn: the reply and the two rewritten stores. -/
structure ChatResult where
  reply : String
  meetings : List Meeting
  history : List Msg
deriving DecidableEq, Repr

/-- `add_keywords`. -/
def addKeywords : List String :=
  ["add meeting", "schedule", "make meeting", "create meeting", "new meeting"]

/-- `show_keywords`. -/
def showKeywords : List String :=
  ["show meetings", "list meetings", "upcoming meetings", "view meetings", "any meetings"]

/-- `delete_keywords`. -/
def deleteKeywords : List String :=
  ["delete meeting", "remove meeting", "cancel meeting"]

/-- The keyword-stripping loop (`for kw in kws: s = s.replace(kw, "")`)
followed by `strip()`.  Note `str.replace` is case-sensitive and the
keywords are lower-case. -/
def stripKeywords (kws : List String) (s : String) : String :=
  pyStrip (kws.foldl (fun acc kw => pyReplace acc kw) s)

/-- The guidance message of the add branch when `" at "` is missing. -/
def provideTimeMsg : String :=
  "Please provide a time, e.g. 'schedule meeting with HR at 2pm'."

/-- The broad `except Exception` message of the add branch. -/
def cantParseMsg : String := "Couldn't parse meeting details properly."

/-- The message when `parse_natural_datetime` returns `None`.  (The code's
truthiness test `if parsed_time:` also distinguishes the empty string, but
every returned timestamp is a 16-character `strftime` result, so only `None`
takes this path.) -/
def cantUnderstandMsg : String :=
  "I couldn’t understand the time. Try 'schedule meeting team sync tomorrow 3pm'."

/-- `chat_with_ai(user_input)` acting on the loaded history and meeting list.
The `except Exception` around the add branch catches the `IndexError` from
`parts[1]` (when the original-case input has no `" at "`) and any exception
out of `parse_natural_datetime`.  In every branch the history file is
rewritten; only the chat fallback appends to it. -/
def chatWithAI (fuzzy : String → Option DateTime) (llm : List Msg → String)
    (now : DateTime) (history : List Msg) (meetings : List Meeting)
    (userInput : String) : ChatResult :=
  let text := pyLower userInput
  if addKeywords.any (fun k => pyContains text k) then
    if pyContains text " at " then
      match (pySplit userInput " at ").get? 1 with
      | none => ⟨cantParseMsg, meetings, history⟩
      | some part1 =>
        let title := stripKeywords addKeywords ((pySplit userInput " at ").headD "")
        let timeText := pyStrip part1
        match parseNaturalDatetime fuzzy now timeText with
        | .ok parsedTime =>
          ⟨(addMeeting meetings title parsedTime).1,
           (addMeeting meetings title parsedTime).2, history⟩
        | .failure => ⟨cantUnderstandMsg, meetings, history⟩
        | .raised => ⟨cantParseMsg, meetings, history⟩
    else ⟨provideTimeMsg, meetings, history⟩
  else if showKeywords.any (fun k => pyContains text k) then
    ⟨showMeetings meetings, meetings, history⟩
  else if deleteKeywords.any (fun k => pyContains text k) then
    ⟨(deleteMeeting meetings (stripKeywords deleteKeywords userInput)).1,
     (deleteMeeting meetings (stripKeywords deleteKeywords userInput)).2, history⟩
  else
    let reply := llm (history ++ [.human userInput])
    ⟨reply, meetings, history ++ [.human userInput, .ai reply]⟩

end GroqAssistant
namespace GroqAssistant

/-! ### Branch equations for `parseCore` -/

theorem parseCore_tomorrow (fuzzy : String → Option DateTime) (now : DateTime) (text : String)
    (h : pyContains text "tomorrow" = true) :
    parseCore fuzzy now text =
      match dateutilCombine (addDays now 1) (timeTokenOrDefault text) with
      | some dt => .ok (fmtFixed dt)
      | none => .raised := by
  unfold parseCore
  simp [h]

theorem parseCore_weekday (fuzzy : String → Option DateTime) (now : DateTime) (text : String)
    (i : Nat) (h : pyContains text "tomorrow" = false)
    (hw : weekdayNames.findIdx? (fun day => pyContains text ("next " ++ day)) = some i) :
    parseCore fuzzy now text =
      match dateutilCombine (addDays now (nextWeekdayDays i (weekday now)))
          (timeTokenOrDefault text) with
      | some dt => .ok (fmtFixed dt)
      | none => .raised := by
  unfold parseCore
  simp [h, hw]

theorem parseCore_fallback (fuzzy : String → Option DateTime) (now : DateTime) (text : String)
    (h : pyContains text "tomorrow" = false)
    (hw : weekdayNames.findIdx? (fun day => pyContains text ("next " ++ day)) = none) :
    parseCore fuzzy now text =
      match fuzzy text with
      | some dt => .ok (fmtFixed dt)
      | none => .failure := by
  unfold parseCore
  simp [h, hw]

end GroqAssistant

namespace GroqAssistant

/-! ### Round trip `strftime` / `strptime` -/

theorem digitChar_isDigit {n : Nat} (h : n < 10) : (Nat.digitChar n).isDigit = true := by
  interval_cases n <;> decide

theorem digitVal_digitChar {n : Nat} (h : n < 10) : digitVal (Nat.digitChar n) = n := by
  interval_cases n <;> decide

theorem readDigits_cons_digit {c : Char} (h : c.isDigit = true) (cs : List Char) :
    readDigits (c :: cs) = (digitVal c :: (readDigits cs).1, (readDigits cs).2) := by
  simp [readDigits, h]

theorem readDigits_cons_nondigit {c : Char} (h : c.isDigit = false) (cs : List Char) :
    readDigits (c :: cs) = ([], c :: cs) := by
  simp [readDigits, h]

theorem readDigits_pad2 {n : Nat} (rest : List Char) (hrest : headNotDigit rest) :
    readDigits (pad2 n ++ rest) = ([n / 10 % 10, n % 10], rest) := by
  have d1 := digitChar_isDigit (n := n / 10 % 10) (Nat.mod_lt _ (by omega))
  have d2 := digitChar_isDigit (n := n % 10) (Nat.mod_lt _ (by omega))
  cases rest with
  | nil =>
    simp [pad2, readDigits, d1, d2, digitVal_digitChar (Nat.mod_lt _ (by omega))]
  | cons c cs =>
    have hc : c.isDigit = false := hrest c rfl
    simp [pad2, readDigits, d1, d2, hc, digitVal_digitChar (Nat.mod_lt _ (by omega))]

theorem field2_pad2 {lo hi n : Nat} (hlo : lo ≤ n) (hhi : n ≤ hi) (hn : n < 100)
    (rest : List Char) (hrest : headNotDigit rest) :
    field2 lo hi (pad2 n ++ rest) = some (n, rest) := by
  have hv : digitsVal [n / 10 % 10, n % 10] = n := by
    simp [digitsVal, List.foldl]
    omega
  rw [field2, readDigits_pad2 rest hrest]
  simp [hv]
  omega

theorem field4_pad4 {n : Nat} (hn : n ≤ 9999) (rest : List Char) :
    field4 (pad4 n ++ rest) = some (n, rest) := by
  have e1 : n / 1000 % 10 < 10 := Nat.mod_lt _ (by omega)
  have e2 : n / 100 % 10 < 10 := Nat.mod_lt _ (by omega)
  have e3 : n / 10 % 10 < 10 := Nat.mod_lt _ (by omega)
  have e4 : n % 10 < 10 := Nat.mod_lt _ (by omega)
  have hv : digitsVal [n / 1000 % 10, n / 100 % 10, n / 10 % 10, n % 10] = n := by
    simp [digitsVal, List.foldl]
    omega
  simp [pad4, field4, digitChar_isDigit e1, digitChar_isDigit e2, digitChar_isDigit e3,
    digitChar_isDigit e4, digitVal_digitChar e1, digitVal_digitChar e2,
    digitVal_digitChar e3, digitVal_digitChar e4, hv]

theorem daysInMonth_le_31 (y m : Nat) : daysInMonth y m ≤ 31 := by
  unfold daysInMonth
  split <;> first | omega | (split <;> omega)

theorem daysInMonth_pos (y m : Nat) : 1 ≤ daysInMonth y m := by
  unfold daysInMonth
  split <;> first | omega | (split <;> omega)

theorem natDigitsAux_congr : ∀ (f g n : Nat), n < 10 ^ (f + 1) → n < 10 ^ (g + 1) →
    natDigitsAux f n = natDigitsAux g n := by
  intro f
  induction f with
  | zero =>
    intro g n hf hg
    have hn : n < 10 := by simpa using hf
    cases g with
    | zero => rfl
    | succ g' => simp [natDigitsAux, hn, Nat.mod_eq_of_lt hn]
  | succ f' ih =>
    intro g n hf hg
    by_cases hn : n < 10
    · cases g with
      | zero => simp [natDigitsAux, hn, Nat.mod_eq_of_lt hn]
      | succ g' => simp [natDigitsAux, hn]
    · cases g with
      | zero =>
        exfalso
        have : n < 10 := by simpa using hg
        omega
      | succ g' =>
        have hf' : n / 10 < 10 ^ (f' + 1) := by
          rw [Nat.div_lt_iff_lt_mul (by norm_num)]
          calc n < 10 ^ (f' + 1 + 1) := hf
            _ = 10 ^ (f' + 1) * 10 := by rw [pow_succ]
        have hg' : n / 10 < 10 ^ (g' + 1) := by
          rw [Nat.div_lt_iff_lt_mul (by norm_num)]
          calc n < 10 ^ (g' + 1 + 1) := hg
            _ = 10 ^ (g' + 1) * 10 := by rw [pow_succ]
        simp [natDigitsAux, hn, ih g' (n / 10) hf' hg']

theorem natDigits_eq_pad4 {y : Nat} (h1 : 1000 ≤ y) (h2 : y ≤ 9999) :
    natDigits y = pad4 y := by
  have hbig : y < 10 ^ (y + 1) :=
    lt_of_lt_of_le (Nat.lt_pow_self (by norm_num) y)
      (Nat.pow_le_pow_right (by norm_num) (by omega))
  have h4 : y < 10 ^ (3 + 1) := by omega
  unfold natDigits
  rw [natDigitsAux_congr y 3 y hbig h4]
  have c1 : ¬ y < 10 := by omega
  have c2 : ¬ y / 10 < 10 := by omega
  have c3 : ¬ y / 100 < 10 := by omega
  simp [natDigitsAux, c1, c2, c3, pad4, Nat.div_div_eq_div_mul]

theorem strptimeFixed_fmtFixed {dt : DateTime} (h : ValidDT dt) (hy4 : 1000 ≤ dt.y) :
    strptimeFixed (fmtFixed dt) = some ⟨dt.y, dt.mo, dt.d, dt.h, dt.mi, 0⟩ := by
  obtain ⟨h1, h2, h3, h4, h5, h6, h7, h8, h9⟩ := h
  have hnd : natDigits dt.y = pad4 dt.y := natDigits_eq_pad4 hy4 h2
  have hd31 : dt.d ≤ 31 := le_trans h6 (daysInMonth_le_31 _ _)
  have s1 := field4_pad4 (n := dt.y) h2
    ('-' :: (pad2 dt.mo ++ '-' :: (pad2 dt.d ++ ' ' :: (pad2 dt.h ++ ':' :: pad2 dt.mi))))
  have s2 := field2_pad2 (n := dt.mo) h3 h4 (by omega)
    ('-' :: (pad2 dt.d ++ ' ' :: (pad2 dt.h ++ ':' :: pad2 dt.mi)))
    (by intro c hc; cases hc; rfl)
  have s3 := field2_pad2 (n := dt.d) h5 hd31 (by omega)
    (' ' :: (pad2 dt.h ++ ':' :: pad2 dt.mi))
    (by intro c hc; cases hc; rfl)
  have s4 := field2_pad2 (n := dt.h) (Nat.zero_le _) h7 (by omega)
    (':' :: pad2 dt.mi)
    (by intro c hc; cases hc; rfl)
  have s5 := field2_pad2 (n := dt.mi) (Nat.zero_le _) h8 (by omega) []
    (by intro c hc; nomatch hc)
  simp only [List.append_nil] at s5
  show strptimeFixedL (fmtFixedL dt) = _
  simp [strptimeFixedL, fmtFixedL, hnd, s1, s2, s3, s4, s5, expectCh, h1, h6]

end GroqAssistant

namespace GroqAssistant

/-! ### Validity of the dates the interpreter produces -/

theorem nextDayD_valid {dt : DateTime} (h : ValidDT dt) (hy : dt.y < 9999) :
    ValidDT (nextDayD dt) ∧ dt.y ≤ (nextDayD dt).y ∧ (nextDayD dt).y ≤ dt.y + 1 ∧
      (nextDayD dt).h = dt.h ∧ (nextDayD dt).mi = dt.mi ∧ (nextDayD dt).sec = dt.sec := by
  obtain ⟨h1, h2, h3, h4, h5, h6, h7, h8, h9⟩ := h
  have p1 := daysInMonth_pos dt.y (dt.mo + 1)
  have p2 := daysInMonth_pos (dt.y + 1) 1
  unfold nextDayD
  split_ifs with c1 c2 <;>
    refine ⟨⟨?_, ?_, ?_, ?_, ?_, ?_, ?_, ?_, ?_⟩, ?_, ?_, ?_, ?_, ?_⟩ <;> simp <;> omega

theorem addDays_valid {dt : DateTime} (n : Nat) (h : ValidDT dt) (hy : dt.y + n ≤ 9999) :
    ValidDT (addDays dt n) ∧ dt.y ≤ (addDays dt n).y ∧ (addDays dt n).y ≤ dt.y + n := by
  induction n with
  | zero => exact ⟨h, by simp [addDays], by simp [addDays]⟩
  | succ m ih =>
    obtain ⟨hv, hge, hle⟩ := ih (by omega)
    have hy' : (addDays dt m).y < 9999 := by omega
    obtain ⟨hv', hge', hle', _, _, _⟩ := nextDayD_valid hv hy'
    refine ⟨hv', ?_, ?_⟩
    · show dt.y ≤ (nextDayD (addDays dt m)).y
      omega
    · show (nextDayD (addDays dt m)).y ≤ dt.y + (m + 1)
      omega

theorem adjustAmpm_le {h : Nat} (hh : h ≤ 12) (mer : Meridiem) : adjustAmpm h mer ≤ 23 := by
  cases mer <;> (simp only [adjustAmpm]; split_ifs <;> omega)

theorem dateutilCombine_valid {base : DateTime} {t : TimeToken} {dt : DateTime}
    (hb : ValidDT base) (h : dateutilCombine base t = some dt) :
    ValidDT dt ∧ dt.y = base.y := by
  obtain ⟨h1, h2, h3, h4, h5, h6, _, _, _⟩ := hb
  unfold dateutilCombine at h
  cases hm : t.merid with
  | some mer =>
    rw [hm] at h
    by_cases c1 : 12 < t.h
    · simp [c1] at h
    · by_cases c2 : 59 < t.minutes.getD 0
      · simp [c1, c2] at h
      · simp [c1, c2] at h
        subst h
        have ha : adjustAmpm t.h mer ≤ 23 := adjustAmpm_le (by omega) mer
        refine ⟨⟨?_, ?_, ?_, ?_, ?_, ?_, ?_, ?_, ?_⟩, ?_⟩ <;> simp <;> omega
  | none =>
    rw [hm] at h
    cases c1 : (t.hDigits = 1 && t.minutes.isNone : Bool) with
    | true => simp [c1] at h
    | false =>
      rw [c1] at h
      simp only [Bool.false_eq_true, if_false] at h
      cases c2 : (23 < t.h || 59 < t.minutes.getD 0 : Bool) with
      | true => rw [c2] at h; simp at h
      | false =>
        rw [c2] at h
        simp only [Bool.false_eq_true, if_false, Option.some.injEq] at h
        subst h
        simp only [Bool.or_eq_false_iff, decide_eq_false_iff_not, Nat.not_lt] at c2
        refine ⟨⟨?_, ?_, ?_, ?_, ?_, ?_, ?_, ?_, ?_⟩, ?_⟩ <;> simp <;> omega

theorem nextWeekdayDays_le (i wd : Nat) : nextWeekdayDays i wd ≤ 7 := by
  have hlt : (i + 7 - wd) % 7 < 7 := Nat.mod_lt _ (by omega)
  show (if (i + 7 - wd) % 7 = 0 then 7 else (i + 7 - wd) % 7) ≤ 7
  split_ifs <;> omega

/-- Every `.ok` result of the interpreter is the fixed-format rendering of a
valid `datetime` (provided the fuzzy fallback only returns valid values and
the reference instant leaves headroom for the ≤ 7-day shifts). -/
theorem parseCore_ok_valid {fuzzy : String → Option DateTime} {now : DateTime} {text s : String}
    (hf : ∀ u dt, fuzzy u = some dt → ValidDT dt) (hn : ValidDT now) (hy : now.y ≤ 9992)
    (h : parseCore fuzzy now text = .ok s) : ∃ dt, ValidDT dt ∧ s = fmtFixed dt := by
  by_cases c1 : pyContains text "tomorrow" = true
  · rw [parseCore_tomorrow fuzzy now text c1] at h
    cases hc : dateutilCombine (addDays now 1) (timeTokenOrDefault text) with
    | none => simp [hc] at h
    | some dt =>
      simp [hc] at h
      exact ⟨dt, (dateutilCombine_valid (addDays_valid 1 hn (by omega)).1 hc).1, h.symm⟩
  · have c1' : pyContains text "tomorrow" = false := by simpa using c1
    cases hw : weekdayNames.findIdx? (fun day => pyContains text ("next " ++ day)) with
    | some i =>
      rw [parseCore_weekday fuzzy now text i c1' hw] at h
      cases hc : dateutilCombine (addDays now (nextWeekdayDays i (weekday now)))
          (timeTokenOrDefault text) with
      | none => simp [hc] at h
      | some dt =>
        simp [hc] at h
        have hle := nextWeekdayDays_le i (weekday now)
        exact ⟨dt, (dateutilCombine_valid (addDays_valid _ hn (by omega)).1 hc).1, h.symm⟩
    | none =>
      rw [parseCore_fallback fuzzy now text c1' hw] at h
      cases hfz : fuzzy text with
      | none => simp [hfz] at h
      | some dt =>
        simp [hfz] at h
        exact ⟨dt, hf _ _ hfz, h.symm⟩

/-- Results of the tomorrow and next-weekday rules always round-trip: their
base date keeps the reference year (plus at most one rollover), so with a
reference year in `[1000, 9992]` the rendered year has four digits and
`strptime` accepts the stored string. -/
theorem parseCore_rule_ok_roundtrip {fuzzy : String → Option DateTime} {now : DateTime}
    {text s : String} (hn : ValidDT now) (hy1 : 1000 ≤ now.y) (hy2 : now.y ≤ 9992)
    (hbranch : pyContains text "tomorrow" = true ∨
      ∃ i, weekdayNames.findIdx? (fun day => pyContains text ("next " ++ day)) = some i)
    (h : parseCore fuzzy now text = .ok s) :
    (strptimeFixed s).isSome = true := by
  by_cases c1 : pyContains text "tomorrow" = true
  · rw [parseCore_tomorrow fuzzy now text c1] at h
    cases hc : dateutilCombine (addDays now 1) (timeTokenOrDefault text) with
    | none => simp [hc] at h
    | some dt =>
      simp [hc] at h
      obtain ⟨hab, hal, hau⟩ := addDays_valid 1 hn (by omega)
      obtain ⟨hv, hyeq⟩ := dateutilCombine_valid hab hc
      rw [← h, strptimeFixed_fmtFixed hv (by omega)]
      rfl
  · have c1' : pyContains text "tomorrow" = false := by simpa using c1
    rcases hbranch with hb | ⟨i, hw⟩
    · exact absurd hb c1
    · rw [parseCore_weekday fuzzy now text i c1' hw] at h
      cases hc : dateutilCombine (addDays now (nextWeekdayDays i (weekday now)))
          (timeTokenOrDefault text) with
      | none => simp [hc] at h
      | some dt =>
        simp [hc] at h
        have hle := nextWeekdayDays_le i (weekday now)
        obtain ⟨hab, hal, hau⟩ :=
          addDays_valid (nextWeekdayDays i (weekday now)) hn (by omega)
        obtain ⟨hv, hyeq⟩ := dateutilCombine_valid hab hc
        rw [← h, strptimeFixed_fmtFixed hv (by omega)]
        rfl

end GroqAssistant

namespace GroqAssistant

/-! ### Ledger lemmas -/

theorem cleanupOldMeetings_eq_filter (now : DateTime) (ms : List Meeting)
    (h : ∀ m ∈ ms, (strptimeFixed m.time).isSome = true) :
    cleanupOldMeetings now ms = some (ms.filter (meetingActiveB now)) := by
  induction ms with
  | nil => rfl
  | cons m rest ih =>
    have hm := h m (List.mem_cons_self m rest)
    obtain ⟨dt, hdt⟩ := Option.isSome_iff_exists.mp hm
    have ihr := ih (fun x hx => h x (List.mem_cons_of_mem m hx))
    have hact : meetingActiveB now m = dtLtB now dt := by
      unfold meetingActiveB
      rw [hdt]
    unfold cleanupOldMeetings
    rw [hdt, ihr, List.filter_cons, hact]

theorem cleanupOldMeetings_subset (now : DateTime) (ms res : List Meeting)
    (h : cleanupOldMeetings now ms = some res) : ∀ m ∈ res, m ∈ ms := by
  induction ms generalizing res with
  | nil =>
    unfold cleanupOldMeetings at h
    cases h
    intro m hm
    cases hm
  | cons m rest ih =>
    unfold cleanupOldMeetings at h
    cases hp : strptimeFixed m.time with
    | none => rw [hp] at h; cases h
    | some dt =>
      rw [hp] at h
      cases hr : cleanupOldMeetings now rest with
      | none => rw [hr] at h; cases h
      | some r2 =>
        rw [hr] at h
        simp only [Option.some.injEq] at h
        subst h
        intro x hx
        by_cases hlt : dtLtB now dt = true
        · rw [if_pos hlt] at hx
          cases hx with
          | head => exact List.mem_cons_self _ _
          | tail _ hx' => exact List.mem_cons_of_mem _ (ih r2 hr x hx')
        · rw [if_neg hlt] at hx
          exact List.mem_cons_of_mem _ (ih r2 hr x hx)

theorem deletedMsg_ne_notFound (t : String) :
    ("Deleted meeting '" ++ t ++ "'.") ≠ notFoundMsg := by
  intro heq
  have hl := congrArg String.length heq
  rw [String.length_append, String.length_append] at hl
  have e1 : ("Deleted meeting '" : String).length = 17 := rfl
  have e2 : ("'." : String).length = 2 := rfl
  have e3 : notFoundMsg.length = 18 := rfl
  omega

/-! ### Router branch equations -/

theorem chatWithAI_add_eq (fuzzy : String → Option DateTime) (llm : List Msg → String)
    (now : DateTime) (hist : List Msg) (ms : List Meeting) (u : String)
    (hkw : addKeywords.any (fun k => pyContains (pyLower u) k) = true)
    (hat : pyContains (pyLower u) " at " = true)
    (hlen : 2 ≤ (pySplit u " at ").length) :
    chatWithAI fuzzy llm now hist ms u =
      match parseNaturalDatetime fuzzy now (pyStrip ((pySplit u " at ").getD 1 "")) with
      | .ok t =>
        ⟨(addMeeting ms (stripKeywords addKeywords ((pySplit u " at ").headD "")) t).1,
         (addMeeting ms (stripKeywords addKeywords ((pySplit u " at ").headD "")) t).2, hist⟩
      | .failure => ⟨cantUnderstandMsg, ms, hist⟩
      | .raised => ⟨cantParseMsg, ms, hist⟩ := by
  cases hg : (pySplit u " at ").get? 1 with
  | none =>
    exfalso
    rw [List.get?_eq_none] at hg
    omega
  | some p =>
    have hgd : (pySplit u " at ").getD 1 "" = p := by
      rw [List.getD_eq_getElem?_getD, ← List.get?_eq_getElem?, hg]
      rfl
    unfold chatWithAI
    rw [hgd]
    simp only [hkw, hat, if_true, hg]

end GroqAssistant

namespace GroqAssistant

/-! ### Claim theorems -/

/-- C1 (counterexample): the Temporal Phrase Interpreter does *not* always
return a timestamp or a `ParseFailure`: on `"tomorrow 99"` the tomorrow
branch extracts the clock-time token `"99"`, `dateutil` rejects hour 99, and
the exception propagates to the caller (`parse_natural_datetime` has no
`try` around this branch). -/
theorem c1_interpreter_raises_cex :
    parseNaturalDatetime (fun _ => none) ⟨2024, 1, 10, 12, 0, 0⟩ "tomorrow 99" =
      .raised := by decide

/-- C1 (amended): the Interpreter raises to its caller *exactly* when the
tomorrow or next-weekday branch is taken and the `dateutil` combination of
the base date with the extracted (or defaulted) clock-time token fails; for
every other text — in particular every text reaching the fuzzy fallback —
it returns a timestamp or a `ParseFailure` and never raises. -/
theorem c1_interpreter_never_raises (fuzzy : String → Option DateTime)
    (now : DateTime) (text : String) :
    parseNaturalDatetime fuzzy now text = .raised ↔
      ((pyContains (pyStrip (pyLower text)) "tomorrow" = true ∧
          dateutilCombine (addDays now 1)
            (timeTokenOrDefault (pyStrip (pyLower text))) = none) ∨
        (pyContains (pyStrip (pyLower text)) "tomorrow" = false ∧
          ∃ i, weekdayNames.findIdx?
              (fun day => pyContains (pyStrip (pyLower text)) ("next " ++ day)) = some i ∧
            dateutilCombine (addDays now (nextWeekdayDays i (weekday now)))
              (timeTokenOrDefault (pyStrip (pyLower text))) = none)) := by
  unfold parseNaturalDatetime
  by_cases c1 : pyContains (pyStrip (pyLower text)) "tomorrow" = true
  · rw [parseCore_tomorrow fuzzy now _ c1]
    cases hc : dateutilCombine (addDays now 1)
        (timeTokenOrDefault (pyStrip (pyLower text))) with
    | none => simp [c1, hc]
    | some dt => simp [c1, hc]
  · have c1' : pyContains (pyStrip (pyLower text)) "tomorrow" = false := by simpa using c1
    cases hw : weekdayNames.findIdx?
        (fun day => pyContains (pyStrip (pyLower text)) ("next " ++ day)) with
    | some i =>
      rw [parseCore_weekday fuzzy now _ i c1' hw]
      cases hc : dateutilCombine (addDays now (nextWeekdayDays i (weekday now)))
          (timeTokenOrDefault (pyStrip (pyLower text))) with
      | none => simp [c1', hc, hw]
      | some dt => simp [c1', hc, hw]
    | none =>
      rw [parseCore_fallback fuzzy now _ c1' hw]
      cases hfz : fuzzy (pyStrip (pyLower text)) with
      | some dt => simp [c1', hfz, hw]
      | none => simp [c1', hfz, hw]

/-- C2 (counterexample): the next-weekday rule does not apply to *every* text
containing `"next <weekday>"`: the tomorrow branch is checked first, so
`"tomorrow next monday"` (reference Wednesday 2024-01-10) yields the
tomorrow-based `"2024-01-11 09:00"`, not the claimed next-Monday date
2024-01-15. -/
theorem c2_next_weekday_cex :
    pyContains (pyStrip (pyLower "tomorrow next monday")) "next monday" = true ∧
    parseNaturalDatetime (fun _ => none) ⟨2024, 1, 10, 9, 30, 0⟩ "tomorrow next monday" =
      .ok "2024-01-11 09:00" := by decide

/-- C2 (amended): for every text *not containing "tomorrow"* whose first
matching weekday (Monday-first order) is `i`, parse combines the date
`daysAhead = ((i - referenceWeekday + 7) mod 7)` days ahead (forced to 7 when
that value is 0) with the extracted clock-time token or the default `"9am"`;
in particular `parse("next wednesday")` with reference Wednesday 2024-01-10
yields `"2024-01-17 09:00"`. -/
theorem c2_next_weekday (fuzzy : String → Option DateTime) (now : DateTime)
    (text : String) (i : Nat) (dt : DateTime)
    (h1 : pyContains (pyStrip (pyLower text)) "tomorrow" = false)
    (h2 : weekdayNames.findIdx?
      (fun day => pyContains (pyStrip (pyLower text)) ("next " ++ day)) = some i)
    (h3 : dateutilCombine (addDays now (nextWeekdayDays i (weekday now)))
      (timeTokenOrDefault (pyStrip (pyLower text))) = some dt) :
    parseNaturalDatetime fuzzy now text = .ok (fmtFixed dt) ∧
      parseNaturalDatetime (fun _ => none) ⟨2024, 1, 10, 9, 30, 0⟩ "next wednesday" =
        .ok "2024-01-17 09:00" := by
  constructor
  · unfold parseNaturalDatetime
    rw [parseCore_weekday fuzzy now _ i h1 h2, h3]
  · decide

/-- C2 (witness): `parse("next monday")` with reference Wednesday 2024-01-10
gives Monday 2024-01-15 at the defaulted 09:00. -/
theorem c2_next_weekday_witness :
    parseNaturalDatetime (fun _ => none) ⟨2024, 1, 10, 9, 30, 0⟩ "next monday" =
      .ok "2024-01-15 09:00" :=
  (c2_next_weekday (fun _ => none) ⟨2024, 1, 10, 9, 30, 0⟩ "next monday" 0
    ⟨2024, 1, 15, 9, 0, 0⟩ (by decide) (by decide) (by decide)).1

/-- C3: for every text containing "tomorrow", parse combines the date one day
after the reference with the first clock-time token matched by
`\d{1,2}(:\d{2})?\s?(am|pm)?` (or the default `"9am"`) and returns the
`"YYYY-MM-DD HH:MM"` rendering; in particular `parse("tomorrow 9am")` with
reference 2024-01-10 yields `"2024-01-11 09:00"`. -/
theorem c3_tomorrow (fuzzy : String → Option DateTime) (now : DateTime)
    (text : String) (dt : DateTime)
    (h1 : pyContains (pyStrip (pyLower text)) "tomorrow" = true)
    (h2 : dateutilCombine (addDays now 1)
      (timeTokenOrDefault (pyStrip (pyLower text))) = some dt) :
    parseNaturalDatetime fuzzy now text = .ok (fmtFixed dt) ∧
      parseNaturalDatetime (fun _ => none) ⟨2024, 1, 10, 14, 0, 0⟩ "tomorrow 9am" =
        .ok "2024-01-11 09:00" := by
  constructor
  · unfold parseNaturalDatetime
    rw [parseCore_tomorrow fuzzy now _ h1, h2]
  · decide

/-- C3 (witness): `parse("tomorrow 3pm")` with reference 2024-01-10 yields
`"2024-01-11 15:00"`. -/
theorem c3_tomorrow_witness :
    parseNaturalDatetime (fun _ => none) ⟨2024, 1, 10, 14, 0, 0⟩ "tomorrow 3pm" =
      .ok "2024-01-11 15:00" :=
  (c3_tomorrow (fun _ => none) ⟨2024, 1, 10, 14, 0, 0⟩ "tomorrow 3pm"
    ⟨2024, 1, 11, 15, 0, 0⟩ (by decide) (by decide)).1

/-- C4: on a stored list whose times all parse under the fixed format,
`pruneExpired(now)` rewrites the store with exactly the records whose parsed
time is strictly greater than `now`, and doing it again with the same `now`
leaves that list unchanged. -/
theorem c4_prune_exact (now : DateTime) (ms : List Meeting)
    (h : ∀ m ∈ ms, (strptimeFixed m.time).isSome = true) :
    cleanupOldMeetings now ms = some (ms.filter (meetingActiveB now)) ∧
      cleanupOldMeetings now (ms.filter (meetingActiveB now)) =
        some (ms.filter (meetingActiveB now)) := by
  refine ⟨cleanupOldMeetings_eq_filter now ms h, ?_⟩
  have h2 : ∀ m ∈ ms.filter (meetingActiveB now), (strptimeFixed m.time).isSome = true :=
    fun m hm => h m (List.mem_of_mem_filter hm)
  rw [cleanupOldMeetings_eq_filter now _ h2, List.filter_filter]
  simp

/-- C4 (witness): pruning at 2024-01-11 00:00 keeps exactly the later
meeting, and pruning the result again is a no-op. -/
theorem c4_prune_exact_witness :
    cleanupOldMeetings ⟨2024, 1, 11, 0, 0, 0⟩
        [⟨"a", "2024-01-10 10:00"⟩, ⟨"b", "2024-01-12 10:00"⟩] =
      some [⟨"b", "2024-01-12 10:00"⟩] ∧
    cleanupOldMeetings ⟨2024, 1, 11, 0, 0, 0⟩ [⟨"b", "2024-01-12 10:00"⟩] =
      some [⟨"b", "2024-01-12 10:00"⟩] :=
  c4_prune_exact ⟨2024, 1, 11, 0, 0, 0⟩
    [⟨"a", "2024-01-10 10:00"⟩, ⟨"b", "2024-01-12 10:00"⟩] (by decide)

/-- C5: `deleteByTitle(t)` removes every record whose title equals `t`
case-insensitively, reports "not found" exactly when the list length is
unchanged, and a second identical delete always reports "not found". -/
theorem c5_delete_all (ms : List Meeting) (t : String) :
    (deleteMeeting ms t).2 = ms.filter (fun m => pyLower m.title != pyLower t) ∧
      ((deleteMeeting ms t).1 = notFoundMsg ↔ (deleteMeeting ms t).2.length = ms.length) ∧
      (deleteMeeting (deleteMeeting ms t).2 t).1 = notFoundMsg := by
  have hle := List.length_filter_le (fun m => pyLower m.title != pyLower t) ms
  refine ⟨rfl, ?_, ?_⟩
  · show (if (ms.filter fun m => pyLower m.title != pyLower t).length < ms.length
        then "Deleted meeting '" ++ t ++ "'." else notFoundMsg) = notFoundMsg ↔
      (ms.filter fun m => pyLower m.title != pyLower t).length = ms.length
    by_cases hlt : (ms.filter fun m => pyLower m.title != pyLower t).length < ms.length
    · rw [if_pos hlt]
      constructor
      · intro he
        exact absurd he (deletedMsg_ne_notFound t)
      · intro he
        omega
    · rw [if_neg hlt]
      constructor
      · intro _
        omega
      · intro _
        rfl
  · show (if ((ms.filter fun m => pyLower m.title != pyLower t).filter
          fun m => pyLower m.title != pyLower t).length <
          (ms.filter fun m => pyLower m.title != pyLower t).length
        then "Deleted meeting '" ++ t ++ "'." else notFoundMsg) = notFoundMsg
    have heq : ((ms.filter fun m => pyLower m.title != pyLower t).filter
        fun m => pyLower m.title != pyLower t) =
        ms.filter fun m => pyLower m.title != pyLower t := by
      rw [List.filter_filter]
      simp
    rw [heq, if_neg (lt_irrefl _)]

end GroqAssistant

namespace GroqAssistant

/-- C6 (counterexample): with two `" at "` occurrences the time payload fed
to the Interpreter is *not* the entire remainder after the first occurrence:
`"add meeting sync at 3pm at 5pm"` splits into three parts and only `"3pm"`
(the segment between the first and second occurrence) is parsed — the fuzzy
parser here only accepts `"3pm"`, and a meeting is stored from it, which
could not happen had `"3pm at 5pm"` been the payload. -/
theorem c6_split_cex :
    (pySplit "add meeting sync at 3pm at 5pm" " at ").getD 1 "" = "3pm" ∧
    (chatWithAI (fun s => if s = "3pm" then some ⟨2024, 1, 10, 15, 0, 0⟩ else none)
        (fun _ => "") ⟨2024, 1, 10, 9, 0, 0⟩ [] [] "add meeting sync at 3pm at 5pm").meetings =
      [⟨"sync", "2024-01-10 15:00"⟩] := by decide

/-- C6 (amended): the add branch splits the original-case utterance on *all*
occurrences of `" at "`; `titlePart` is the segment before the first
occurrence and the text fed to the Interpreter is the stripped *second
segment* — the whole remainder only when there is exactly one occurrence. -/
theorem c6_split_on_at (fuzzy : String → Option DateTime) (llm : List Msg → String)
    (now : DateTime) (hist : List Msg) (ms : List Meeting) (u : String)
    (hkw : addKeywords.any (fun k => pyContains (pyLower u) k) = true)
    (hat : pyContains (pyLower u) " at " = true)
    (hlen : 2 ≤ (pySplit u " at ").length) :
    chatWithAI fuzzy llm now hist ms u =
      match parseNaturalDatetime fuzzy now (pyStrip ((pySplit u " at ").getD 1 "")) with
      | .ok t =>
        ⟨(addMeeting ms (stripKeywords addKeywords ((pySplit u " at ").headD "")) t).1,
         (addMeeting ms (stripKeywords addKeywords ((pySplit u " at ").headD "")) t).2, hist⟩
      | .failure => ⟨cantUnderstandMsg, ms, hist⟩
      | .raised => ⟨cantParseMsg, ms, hist⟩ :=
  chatWithAI_add_eq fuzzy llm now hist ms u hkw hat hlen

/-- C6 (witness): an utterance with two `" at "` occurrences stores a meeting
from the middle segment `"2pm"`. -/
theorem c6_split_on_at_witness :
    chatWithAI (fun s => if s = "2pm" then some ⟨2024, 1, 10, 14, 0, 0⟩ else none)
        (fun _ => "") ⟨2024, 1, 10, 9, 0, 0⟩ [] [] "add meeting x at 2pm at 4pm" =
      ⟨"Meeting 'x' scheduled for 2024-01-10 14:00.",
       [⟨"x", "2024-01-10 14:00"⟩], []⟩ :=
  c6_split_on_at (fun s => if s = "2pm" then some ⟨2024, 1, 10, 14, 0, 0⟩ else none)
    (fun _ => "") ⟨2024, 1, 10, 9, 0, 0⟩ [] [] "add meeting x at 2pm at 4pm"
    (by decide) (by decide) (by decide)

/-- C7 (counterexample): keyword stripping is case-*sensitive*
(`str.replace` of the lower-case keywords on the original-case title part),
so the mixed-case `"Create meeting"` is not removed: the stored title is
`"Create meeting sync"`, not the claimed `"sync"`. -/
theorem c7_strip_cex :
    (chatWithAI (fun s => if s = "3pm" then some ⟨2024, 1, 10, 15, 0, 0⟩ else none)
        (fun _ => "") ⟨2024, 1, 10, 9, 0, 0⟩ [] [] "Create meeting sync at 3pm").meetings =
      [⟨"Create meeting sync", "2024-01-10 15:00"⟩] ∧
    "Create meeting sync" ≠ "sync" := by decide

/-- C7 (amended): on the normal add path the stored title is obtained from
the segment before the first `" at "` by replacing every (non-overlapping)
occurrence of each lower-case add-keyword in the code's fixed order —
case-sensitively, so occurrences differing in case survive — and trimming
whitespace. -/
theorem c7_strip_keywords (fuzzy : String → Option DateTime) (llm : List Msg → String)
    (now : DateTime) (hist : List Msg) (ms : List Meeting) (u t : String)
    (hkw : addKeywords.any (fun k => pyContains (pyLower u) k) = true)
    (hat : pyContains (pyLower u) " at " = true)
    (hlen : 2 ≤ (pySplit u " at ").length)
    (hp : parseNaturalDatetime fuzzy now (pyStrip ((pySplit u " at ").getD 1 "")) = .ok t) :
    (chatWithAI fuzzy llm now hist ms u).meetings =
      ms ++ [⟨stripKeywords addKeywords ((pySplit u " at ").headD ""), t⟩] := by
  rw [chatWithAI_add_eq fuzzy llm now hist ms u hkw hat hlen, hp]
  rfl

/-- C7 (witness): the lower-case keyword `"add meeting"` is stripped (at
every occurrence) and the title trimmed. -/
theorem c7_strip_keywords_witness :
    (chatWithAI (fun s => if s = "2pm" then some ⟨2024, 1, 10, 14, 0, 0⟩ else none)
        (fun _ => "") ⟨2024, 1, 10, 9, 0, 0⟩ [] [] "add meeting sync add meeting at 2pm").meetings =
      [⟨"sync", "2024-01-10 14:00"⟩] :=
  c7_strip_keywords (fun s => if s = "2pm" then some ⟨2024, 1, 10, 14, 0, 0⟩ else none)
    (fun _ => "") ⟨2024, 1, 10, 9, 0, 0⟩ [] [] "add meeting sync add meeting at 2pm"
    "2024-01-10 14:00" (by decide) (by decide) (by decide) (by decide)

/-- C8 (counterexample): the membership test is on the lower-cased input but
the split is on the original: `"Add meeting sync At 3pm"` contains no
`" at "` yet does not get the guidance message — the `parts[1]` lookup
raises `IndexError` and the broad `except` answers with the generic failure
message instead. -/
theorem c8_no_at_cex :
    pyContains "Add meeting sync At 3pm" " at " = false ∧
    (chatWithAI (fun _ => none) (fun _ => "") ⟨2024, 1, 10, 9, 0, 0⟩ [] []
        "Add meeting sync At 3pm").reply = cantParseMsg ∧
    cantParseMsg ≠ provideTimeMsg := by decide

/-- C8 (amended): for every add-intent utterance whose *lower-cased* form
does not contain `" at "`, the router returns the fixed guidance message and
the meeting list is unchanged. -/
theorem c8_missing_at_guidance (fuzzy : String → Option DateTime) (llm : List Msg → String)
    (now : DateTime) (hist : List Msg) (ms : List Meeting) (u : String)
    (hkw : addKeywords.any (fun k => pyContains (pyLower u) k) = true)
    (hat : pyContains (pyLower u) " at " = false) :
    (chatWithAI fuzzy llm now hist ms u).reply = provideTimeMsg ∧
      (chatWithAI fuzzy llm now hist ms u).meetings = ms := by
  unfold chatWithAI
  simp [hkw, hat]

/-- C8 (witness): `"schedule sync tomorrow"` has an add keyword and no
`" at "`; the reply is the guidance message and the ledger is untouched. -/
theorem c8_missing_at_guidance_witness :
    (chatWithAI (fun _ => none) (fun _ => "") ⟨2024, 1, 10, 9, 0, 0⟩ []
        [⟨"x", "2024-01-12 10:00"⟩] "schedule sync tomorrow").reply = provideTimeMsg ∧
      (chatWithAI (fun _ => none) (fun _ => "") ⟨2024, 1, 10, 9, 0, 0⟩ []
        [⟨"x", "2024-01-12 10:00"⟩] "schedule sync tomorrow").meetings =
      [⟨"x", "2024-01-12 10:00"⟩] :=
  c8_missing_at_guidance (fun _ => none) (fun _ => "") ⟨2024, 1, 10, 9, 0, 0⟩ []
    [⟨"x", "2024-01-12 10:00"⟩] "schedule sync tomorrow" (by decide) (by decide)

end GroqAssistant

namespace GroqAssistant

/-- C9 (counterexample): two refutations at concrete inputs.  First,
`"add meeting at 3pm"` strips the keyword out of the title part entirely and
stores a record whose title is the *empty* string.  Second,
`"add meeting x at 0005-01-11"` reaches the fuzzy fallback, which returns a
real `datetime` with year 5; glibc `strftime("%Y")` renders it unpadded, so
the stored time is `"5-01-11 14:23"` — not in the fixed lexical form — and
`strptime` under the exact format rejects it. -/
theorem c9_record_cex :
    (chatWithAI (fun s => if s = "3pm" then some ⟨2024, 1, 10, 15, 0, 0⟩ else none)
        (fun _ => "") ⟨2024, 1, 10, 9, 0, 0⟩ [] [] "add meeting at 3pm").meetings =
      [⟨"", "2024-01-10 15:00"⟩] ∧
    (chatWithAI (fun s => if s = "0005-01-11" then some ⟨5, 1, 11, 14, 23, 0⟩ else none)
        (fun _ => "") ⟨2024, 1, 10, 9, 0, 0⟩ [] [] "add meeting x at 0005-01-11").meetings =
      [⟨"x", "5-01-11 14:23"⟩] ∧
    strptimeFixed "5-01-11 14:23" = none := by decide

/-- C9 (amended): every meeting record any operation writes either was
already in the store or carries the `strftime("%Y-%m-%d %H:%M")` rendering
of an actual `datetime` value — whose title may be empty and which parses
back under the exact format whenever its year has four digits (glibc leaves
years below 1000 unpadded, so a fuzzy-fallback result such as year 5 is
stored outside the fixed form and `strptime` rejects it).  Records produced
by the tomorrow and next-weekday rules keep the reference year (at most one
rollover), so with a reference year in `[1000, 9992]` they always parse
back.  `pruneExpired` and `deleteByTitle` only ever keep existing records. -/
theorem c9_written_records (fuzzy : String → Option DateTime) (llm : List Msg → String)
    (now : DateTime) (hist : List Msg) (ms : List Meeting) (u : String)
    (hf : ∀ s dt, fuzzy s = some dt → ValidDT dt) (hn : ValidDT now)
    (hy1 : 1000 ≤ now.y) (hy2 : now.y ≤ 9992) :
    (∀ m ∈ (chatWithAI fuzzy llm now hist ms u).meetings,
        m ∈ ms ∨ ∃ dt, ValidDT dt ∧ m.time = fmtFixed dt ∧
          (1000 ≤ dt.y → (strptimeFixed m.time).isSome = true)) ∧
      (∀ text s,
        (pyContains (pyStrip (pyLower text)) "tomorrow" = true ∨
          ∃ i, weekdayNames.findIdx?
            (fun day => pyContains (pyStrip (pyLower text)) ("next " ++ day)) = some i) →
        parseNaturalDatetime fuzzy now text = .ok s →
        (strptimeFixed s).isSome = true) ∧
      (∀ res, cleanupOldMeetings now ms = some res → ∀ m ∈ res, m ∈ ms) ∧
      (∀ t, ∀ m ∈ (deleteMeeting ms t).2, m ∈ ms) := by
  refine ⟨?_, ?_, fun res hres => cleanupOldMeetings_subset now ms res hres,
    fun t m hm => List.mem_of_mem_filter hm⟩
  · intro m hm
    by_cases a1 : addKeywords.any (fun k => pyContains (pyLower u) k) = true
    · by_cases a2 : pyContains (pyLower u) " at " = true
      · unfold chatWithAI at hm
        simp only [a1, a2, if_true] at hm
        cases hg : (pySplit u " at ").get? 1 with
        | none =>
          simp only [hg] at hm
          exact Or.inl hm
        | some p =>
          simp only [hg] at hm
          cases hp : parseNaturalDatetime fuzzy now (pyStrip p) with
          | ok s =>
            simp only [hp, addMeeting, List.mem_append, List.mem_singleton] at hm
            cases hm with
            | inl hin => exact Or.inl hin
            | inr heq =>
              right
              unfold parseNaturalDatetime at hp
              obtain ⟨dt, hv, rfl⟩ := parseCore_ok_valid hf hn (by omega) hp
              refine ⟨dt, hv, by rw [heq], ?_⟩
              intro h4
              rw [heq]
              rw [show (⟨stripKeywords addKeywords ((pySplit u " at ").headD ""),
                fmtFixed dt⟩ : Meeting).time = fmtFixed dt from rfl]
              rw [strptimeFixed_fmtFixed hv h4]
              rfl
          | failure =>
            simp only [hp] at hm
            exact Or.inl hm
          | raised =>
            simp only [hp] at hm
            exact Or.inl hm
      · unfold chatWithAI at hm
        simp only [a1, a2, if_true] at hm
        exact Or.inl (by simpa using hm)
    · unfold chatWithAI at hm
      simp only [a1] at hm
      by_cases a3 : showKeywords.any (fun k => pyContains (pyLower u) k) = true
      · simp only [a3, if_true] at hm
        exact Or.inl (by simpa using hm)
      · simp only [a3] at hm
        by_cases a4 : deleteKeywords.any (fun k => pyContains (pyLower u) k) = true
        · simp only [a4, if_true] at hm
          have hm2 : m ∈ ms.filter
              (fun x => pyLower x.title != pyLower (stripKeywords deleteKeywords u)) := hm
          exact Or.inl (List.mem_of_mem_filter hm2)
        · simp only [a4] at hm
          exact Or.inl (by simpa using hm)
  · intro text s hbranch hp
    unfold parseNaturalDatetime at hp
    exact parseCore_rule_ok_roundtrip hn hy1 hy2 hbranch hp

/-- C9 (witness): a time produced by the tomorrow rule from a 2024 reference
parses back under the exact format. -/
theorem c9_written_records_witness :
    (strptimeFixed "2024-01-11 09:00").isSome = true :=
  (c9_written_records (fun _ => none) (fun _ => "") ⟨2024, 1, 10, 14, 0, 0⟩ [] [] "x"
      (fun _ _ h => nomatch h) (by decide) (by decide) (by decide)).2.1
    "tomorrow 9am" "2024-01-11 09:00" (Or.inl (by decide)) (by decide)

/-- C10: a turn classified as a meeting intent (add, show or delete keyword
present in the lower-cased input) rewrites the history with unchanged
contents, while the general-chat fallback appends exactly one human turn and
one ai turn. -/
theorem c10_history_frame (fuzzy : String → Option DateTime) (llm : List Msg → String)
    (now : DateTime) (hist : List Msg) (ms : List Meeting) (u : String) :
    ((addKeywords.any (fun k => pyContains (pyLower u) k) = true ∨
        showKeywords.any (fun k => pyContains (pyLower u) k) = true ∨
        deleteKeywords.any (fun k => pyContains (pyLower u) k) = true) →
      (chatWithAI fuzzy llm now hist ms u).history = hist) ∧
    (addKeywords.any (fun k => pyContains (pyLower u) k) = false →
      showKeywords.any (fun k => pyContains (pyLower u) k) = false →
      deleteKeywords.any (fun k => pyContains (pyLower u) k) = false →
      (chatWithAI fuzzy llm now hist ms u).history =
        hist ++ [.human u, .ai (llm (hist ++ [.human u]))]) := by
  constructor
  · intro hmi
    unfold chatWithAI
    by_cases a1 : addKeywords.any (fun k => pyContains (pyLower u) k) = true
    · simp only [a1, if_true]
      by_cases a2 : pyContains (pyLower u) " at " = true
      · simp only [a2, if_true]
        split
        · rfl
        · split <;> rfl
      · simp only [a2]
        rfl
    · simp only [a1]
      by_cases a3 : showKeywords.any (fun k => pyContains (pyLower u) k) = true
      · simp only [a3, if_true]
        rfl
      · simp only [a3]
        by_cases a4 : deleteKeywords.any (fun k => pyContains (pyLower u) k) = true
        · simp only [a4, if_true]
          rfl
        · rcases hmi with h | h | h
          · exact absurd h a1
          · exact absurd h a3
          · exact absurd h a4
  · intro f1 f2 f3
    unfold chatWithAI
    simp [f1, f2, f3]

/-- C10 (witness): a show-meetings turn leaves the stored history unchanged. -/
theorem c10_history_frame_witness :
    (chatWithAI (fun _ => none) (fun _ => "hi") ⟨2024, 1, 10, 9, 0, 0⟩
        [.human "hello", .ai "hey"] [] "show meetings").history =
      [.human "hello", .ai "hey"] :=
  (c10_history_frame (fun _ => none) (fun _ => "hi") ⟨2024, 1, 10, 9, 0, 0⟩
      [.human "hello", .ai "hey"] [] "show meetings").1
    (Or.inr (Or.inl (by decide)))

end GroqAssistant
